import Mathlib

/-!
Verification of the LisanAI client-side media routines.

The definitions below are shallow embeddings of the corresponding
TypeScript functions in `src/LanguageContext.tsx`:

* the streaming audio playback sequencer of the conversation mode
  (the `onmessage` callback and `stopConversation`),
* the video frame-sampling loop (`extractFrames`),
* the transcript assembler (the transcription branches of `onmessage`),
* the input-validation gates of `handleGenerateSpeech` and `handleAnalyze`,
* the localization lookup `t` and the derived `dir` flag.

Audio-clock times and durations are modelled as rationals, playback
handles as naturals allocated by a fresh counter, byte buffers as lists
of naturals below 256.
-/

namespace LisanAI

/-! ### Audio playback sequencer

`onmessage` (lines 626-647) keeps a cursor `nextStartTime` and a set of
active `AudioBufferSourceNode` handles.  On receipt of an audio chunk it
computes `startTime = max(currentTime, nextStartTime)`, starts the source
at `startTime`, sets `nextStartTime := startTime + duration` and inserts
the source into the active set; `onended` deletes the source from the set.
On an `interrupted` message it stops every active source, clears the set
and resets `nextStartTime` to `0`.  `stopConversation` (lines 527-532)
stops every active source and clears the set without touching the cursor.
-/

/-- One playback-sequencer state: the scheduling cursor, the set of active
playback handles, the set of handles that have been explicitly stopped, and
a fresh-handle counter (each decoded chunk creates a brand new source node,
so handles are never reused). -/
structure SchedState where
  nextStartTime : ℚ
  active : Finset ℕ
  stopped : Finset ℕ
  fresh : ℕ
deriving DecidableEq

/-- The operations the sequencer reacts to: arrival of a decoded audio
chunk (carrying the current clock time and the chunk duration), natural
completion of one handle (`onended`), the server `interrupted` marker, and
`stopConversation`. -/
inductive SchedEvent where
  | arrive (now dur : ℚ)
  | ended (h : ℕ)
  | interrupted
  | stopSession
deriving DecidableEq

/-- The start time chosen for a chunk arriving at clock time `now`:
`Math.max(currentTime, nextStartTimeRef.current)` (line 634). -/
def arrivalStart (s : SchedState) (now : ℚ) : ℚ :=
  max now s.nextStartTime

/-- One step of the sequencer, translated from `onmessage` lines 626-647
and `stopConversation` lines 527-532. -/
def schedStep (s : SchedState) : SchedEvent → SchedState
  | .arrive now dur =>
      { s with
        nextStartTime := arrivalStart s now + dur
        active := insert s.fresh s.active
        fresh := s.fresh + 1 }
  | .ended h => { s with active := s.active.erase h }
  | .interrupted =>
      { s with
        active := ∅
        stopped := s.stopped ∪ s.active
        nextStartTime := 0 }
  | .stopSession =>
      { s with
        active := ∅
        stopped := s.stopped ∪ s.active }

/-- The sequencer state at session start: `nextStartTimeRef.current = 0`
(line 561) and an empty source set. -/
def initSched : SchedState :=
  { nextStartTime := 0, active := ∅, stopped := ∅, fresh := 0 }

/-- The list of `(startTime, duration)` pairs produced by feeding the
chunks `(now₁, d₁), …, (nowₙ, dₙ)` (arrival clock time and duration) to
the scheduling rule of lines 633-636, starting from cursor `c`. -/
def schedulePairs : ℚ → List (ℚ × ℚ) → List (ℚ × ℚ)
  | _, [] => []
  | c, (now, d) :: rest =>
      (max now c, d) :: schedulePairs (max now c + d) rest

theorem schedStep_arrive_cursor (s : SchedState) (now dur : ℚ) :
    (schedStep s (.arrive now dur)).nextStartTime = max now s.nextStartTime + dur :=
  rfl

theorem schedulePairs_head_ge (c : ℚ) (chunks : List (ℚ × ℚ)) :
    ∀ p ∈ (schedulePairs c chunks).head?, c ≤ p.1 := by
  cases chunks with
  | nil => simp [schedulePairs]
  | cons q rest =>
      obtain ⟨now, d⟩ := q
      simp [schedulePairs, le_max_right]

theorem schedulePairs_chain (chunks : List (ℚ × ℚ)) :
    ∀ c : ℚ, (∀ p ∈ chunks, 0 ≤ p.2) →
      List.Chain' (fun a b : ℚ × ℚ => a.1 + a.2 ≤ b.1 ∧ a.1 ≤ b.1)
        (schedulePairs c chunks) := by
  induction chunks with
  | nil => intro c _; simp [schedulePairs]
  | cons q rest ih =>
      intro c hdur
      obtain ⟨now, d⟩ := q
      have hd : 0 ≤ d := hdur (now, d) (by simp)
      have hrest : ∀ p ∈ rest, 0 ≤ p.2 := fun p hp => hdur p (List.mem_cons_of_mem _ hp)
      rw [schedulePairs, List.chain'_cons']
      refine ⟨?_, ih _ hrest⟩
      intro b hb
      have hge := schedulePairs_head_ge (max now c + d) rest b hb
      constructor
      · exact hge
      · calc (max now c) ≤ max now c + d := by linarith
          _ ≤ b.1 := hge

theorem schedulePairs_durations (c : ℚ) (chunks : List (ℚ × ℚ)) :
    (schedulePairs c chunks).map Prod.snd = chunks.map Prod.snd := by
  induction chunks generalizing c with
  | nil => simp [schedulePairs]
  | cons q rest ih =>
      obtain ⟨now, d⟩ := q
      simp [schedulePairs, ih]

/-- Claim C1: for any sequence of audio chunks with non-negative durations
arriving at arbitrary non-negative clock times, the scheduling rule
`startTime = max(currentClockTime, nextStartTime); nextStartTime :=
startTime + duration` (lines 633-636) produces non-decreasing start times,
each chunk's end time `start + duration` never exceeds the next chunk's
start time, and the durations are carried over unchanged in arrival
order. -/
theorem scheduled_chunks_ordered_no_overlap (chunks : List (ℚ × ℚ))
    (hnow : ∀ p ∈ chunks, 0 ≤ p.1) (hdur : ∀ p ∈ chunks, 0 ≤ p.2) :
    List.Chain' (fun a b : ℚ × ℚ => a.1 ≤ b.1) (schedulePairs 0 chunks) ∧
    List.Chain' (fun a b : ℚ × ℚ => a.1 + a.2 ≤ b.1) (schedulePairs 0 chunks) ∧
    (schedulePairs 0 chunks).map Prod.snd = chunks.map Prod.snd := by
  have h := schedulePairs_chain chunks 0 hdur
  exact ⟨h.imp fun a b hab => hab.2, h.imp fun a b hab => hab.1,
    schedulePairs_durations 0 chunks⟩

/-- Witness for C1 on a concrete bursty arrival pattern: chunks of
durations 2, 1 and 4 arriving at clock times 0, 5 and 3. -/
theorem scheduled_chunks_ordered_no_overlap_witness :
    ((∀ p ∈ [((0 : ℚ), (2 : ℚ)), (5, 1), (3, 4)], 0 ≤ p.1) ∧
      (∀ p ∈ [((0 : ℚ), (2 : ℚ)), (5, 1), (3, 4)], 0 ≤ p.2)) ∧
    (List.Chain' (fun a b : ℚ × ℚ => a.1 ≤ b.1)
        (schedulePairs 0 [(0, 2), (5, 1), (3, 4)]) ∧
      List.Chain' (fun a b : ℚ × ℚ => a.1 + a.2 ≤ b.1)
        (schedulePairs 0 [(0, 2), (5, 1), (3, 4)]) ∧
      (schedulePairs 0 [((0 : ℚ), (2 : ℚ)), (5, 1), (3, 4)]).map Prod.snd =
        [((0 : ℚ), (2 : ℚ)), (5, 1), (3, 4)].map Prod.snd) :=
  ⟨⟨by decide, by decide⟩,
    scheduled_chunks_ordered_no_overlap [(0, 2), (5, 1), (3, 4)] (by decide) (by decide)⟩

/-- Claim C2: processing the `interrupted` marker (lines 641-647) stops
every handle of the active set, leaves the active set empty, and resets
`nextStartTime` to `0`; consequently a chunk arriving afterwards at any
non-negative clock time `now` starts exactly at `now`. -/
theorem interrupt_clears_and_resets (s : SchedState) (now : ℚ) (hnow : 0 ≤ now) :
    (schedStep s .interrupted).active = ∅ ∧
    (schedStep s .interrupted).nextStartTime = 0 ∧
    (∀ h ∈ s.active, h ∈ (schedStep s .interrupted).stopped) ∧
    arrivalStart (schedStep s .interrupted) now = now := by
  refine ⟨rfl, rfl, ?_, ?_⟩
  · intro h hh
    simp [schedStep, hh]
  · simp [arrivalStart, schedStep, max_eq_left hnow]

/-- Witness for C2: a state with two active handles and a pending cursor
at 7, interrupted, then a chunk arriving at clock time 3. -/
theorem interrupt_clears_and_resets_witness :
    (0 : ℚ) ≤ 3 ∧
    ((schedStep ⟨7, {0, 1}, ∅, 2⟩ .interrupted).active = ∅ ∧
      (schedStep ⟨7, {0, 1}, ∅, 2⟩ .interrupted).nextStartTime = 0 ∧
      (∀ h ∈ ({0, 1} : Finset ℕ), h ∈ (schedStep ⟨7, {0, 1}, ∅, 2⟩ .interrupted).stopped) ∧
      arrivalStart (schedStep ⟨7, {0, 1}, ∅, 2⟩ .interrupted) 3 = 3) :=
  ⟨by norm_num, interrupt_clears_and_resets ⟨7, {0, 1}, ∅, 2⟩ 3 (by norm_num)⟩

/-- Counterexample to claim C5 as stated: the cursor does move backward.
After a chunk of duration 1 arrives at clock time 0 the cursor is 1; the
`interrupted` marker then resets it to 0 < 1. -/
theorem cursor_moves_backward_on_interrupt :
    (schedStep (schedStep initSched (.arrive 0 1)) .interrupted).nextStartTime
      < (schedStep initSched (.arrive 0 1)).nextStartTime := by
  norm_num [schedStep, initSched, arrivalStart]

/-- `True` for every event except `arrive`, and `0 ≤ dur` for `arrive`:
chunk durations (`audioBuffer.duration`) are non-negative. -/
def eventDurOk : SchedEvent → Prop
  | .arrive _ dur => 0 ≤ dur
  | _ => True

/-- Claim C5 (amended): across chunk arrivals (with non-negative
durations), natural completions and session stops the cursor
`nextStartTime` never moves backward; the `interrupted` marker is the only
operation that moves it backward, resetting it to zero. -/
theorem cursor_monotone_except_interrupt (s : SchedState) (e : SchedEvent)
    (hd : eventDurOk e) :
    (e ≠ .interrupted → s.nextStartTime ≤ (schedStep s e).nextStartTime) ∧
    (schedStep s .interrupted).nextStartTime = 0 := by
  refine ⟨?_, rfl⟩
  intro hne
  cases e with
  | arrive now dur =>
      have hd' : (0 : ℚ) ≤ dur := hd
      have : s.nextStartTime ≤ max now s.nextStartTime := le_max_right _ _
      simp only [schedStep, arrivalStart]
      linarith
  | ended h => exact le_refl _
  | interrupted => exact absurd rfl hne
  | stopSession => exact le_refl _

/-- Witness for C5 (amended): a completion event on a concrete state. -/
theorem cursor_monotone_except_interrupt_witness :
    eventDurOk (.ended 0) ∧
    (((SchedEvent.ended 0) ≠ .interrupted →
        (⟨5, {0}, ∅, 1⟩ : SchedState).nextStartTime ≤
          (schedStep ⟨5, {0}, ∅, 1⟩ (.ended 0)).nextStartTime) ∧
      (schedStep ⟨5, {0}, ∅, 1⟩ .interrupted).nextStartTime = 0) :=
  ⟨trivial, cursor_monotone_except_interrupt ⟨5, {0}, ∅, 1⟩ (.ended 0) trivial⟩

/-! ### Handle bookkeeping (claim C6)

A handle is "removed" at a step of a trace when it is a member of the
active set before the step and not after.  We show that along any trace of
sequencer events started from the initial state, each handle is removed at
most once: `onended` after an interrupt (the source's `onended` still fires
after `source.stop()`) finds the handle already gone and `Set.delete` is a
no-op, so no double removal ever occurs.
-/

/-- The list of states visited while processing a list of events. -/
def statesFrom (s : SchedState) : List SchedEvent → List SchedState
  | [] => [s]
  | e :: es => s :: statesFrom (schedStep s e) es

/-- The number of steps of a state trace at which handle `h` transitions
from member to non-member of the active set. -/
def removalCount (h : ℕ) : List SchedState → ℕ
  | a :: b :: rest =>
      (if h ∈ a.active ∧ h ∉ b.active then 1 else 0) + removalCount h (b :: rest)
  | _ => 0

/-- Invariant: every active handle was allocated below the fresh counter. -/
def goodState (s : SchedState) : Prop :=
  ∀ x ∈ s.active, x < s.fresh

theorem goodState_init : goodState initSched := by
  intro x hx
  simp [initSched] at hx

theorem goodState_step (s : SchedState) (e : SchedEvent) (hs : goodState s) :
    goodState (schedStep s e) := by
  cases e with
  | arrive now dur =>
      intro x hx
      simp only [schedStep, Finset.mem_insert] at hx
      rcases hx with rfl | hx
      · simp [schedStep]
      · exact Nat.lt_succ_of_lt (hs x hx)
  | ended h =>
      intro x hx
      exact hs x (Finset.mem_of_mem_erase hx)
  | interrupted => intro x hx; simp [schedStep] at hx
  | stopSession => intro x hx; simp [schedStep] at hx

theorem fresh_mono (s : SchedState) (e : SchedEvent) :
    s.fresh ≤ (schedStep s e).fresh := by
  cases e <;> simp [schedStep]

/-- Once a handle allocated in the past has left the active set, no
event can bring it back: `arrive` only inserts the fresh handle. -/
theorem stays_out (s : SchedState) (e : SchedEvent) (h : ℕ)
    (hfresh : h < s.fresh) (hout : h ∉ s.active) :
    h ∉ (schedStep s e).active ∧ h < (schedStep s e).fresh := by
  cases e with
  | arrive now dur =>
      constructor
      · simp only [schedStep, Finset.mem_insert]
        rintro (rfl | hmem)
        · exact absurd hfresh (lt_irrefl _)
        · exact hout hmem
      · exact Nat.lt_succ_of_lt hfresh
  | ended h' =>
      exact ⟨fun hmem => hout (Finset.mem_of_mem_erase hmem), hfresh⟩
  | interrupted => simpa [schedStep] using hfresh
  | stopSession => simpa [schedStep] using hfresh

theorem removalCount_statesFrom_cons (h : ℕ) (s : SchedState) (e : SchedEvent)
    (es : List SchedEvent) :
    removalCount h (statesFrom s (e :: es)) =
      (if h ∈ s.active ∧ h ∉ (schedStep s e).active then 1 else 0) +
        removalCount h (statesFrom (schedStep s e) es) := by
  cases es <;> rfl

theorem removalCount_zero_of_out (h : ℕ) (es : List SchedEvent) :
    ∀ s : SchedState, h < s.fresh → h ∉ s.active →
      removalCount h (statesFrom s es) = 0 := by
  induction es with
  | nil => intro s _ _; rfl
  | cons e es ih =>
      intro s hfresh hout
      obtain ⟨hout', hfresh'⟩ := stays_out s e h hfresh hout
      rw [removalCount_statesFrom_cons, if_neg (fun hc => hout hc.1), ih _ hfresh' hout']

theorem removalCount_le_one (h : ℕ) (es : List SchedEvent) :
    ∀ s : SchedState, goodState s → removalCount h (statesFrom s es) ≤ 1 := by
  induction es with
  | nil => intro s _; exact Nat.zero_le 1
  | cons e es ih =>
      intro s hs
      rw [removalCount_statesFrom_cons]
      by_cases hrem : h ∈ s.active ∧ h ∉ (schedStep s e).active
      · have hfresh : h < (schedStep s e).fresh :=
          lt_of_lt_of_le (hs h hrem.1) (fresh_mono s e)
        rw [if_pos hrem, removalCount_zero_of_out h es _ hfresh hrem.2]
      · rw [if_neg hrem, Nat.zero_add]
        exact ih _ (goodState_step s e hs)

/-- Claim C6: along any trace of sequencer events from the initial state,
each playback handle undergoes at most one removal from the active set
(so the `onended` deletion and an interruption's clear never both remove
it); an interruption removes every handle from the active set, a
subsequent `onended` deletion is a no-op on the active set, and after a
natural completion the handle is gone from the active set. -/
theorem handle_removed_at_most_once (h : ℕ) (es : List SchedEvent) :
    removalCount h (statesFrom initSched es) ≤ 1 ∧
    (∀ s : SchedState, h ∉ (schedStep s .interrupted).active) ∧
    (∀ s : SchedState,
      (schedStep (schedStep s .interrupted) (.ended h)).active =
        (schedStep s .interrupted).active) ∧
    (∀ s : SchedState, h ∉ (schedStep s (.ended h)).active) := by
  refine ⟨removalCount_le_one h es initSched goodState_init, ?_, ?_, ?_⟩
  · intro s
    simp [schedStep]
  · intro s
    simp [schedStep]
  · intro s
    simp [schedStep]

/-! ### Video frame sampler (claims C3, C8)

`extractFrames` (lines 99-128) sets `video.currentTime = 0` and installs a
`seeked` handler.  Each invocation of the handler draws and appends one
frame at the current position, then either advances `currentTime` by one
second (when `currentTime < duration`) — which fires `seeked` again — or
resolves with the accumulated frames.  Per the HTML media-element seeking
algorithm, assigning `currentTime` a value past `duration` clamps the new
position to `duration` and still fires `seeked`, so the advance step moves
the position from `t` to `min (t + 1) duration`.  We record each appended
frame by the position it was sampled at (the success path: a 2D context is
available and every `canvas.toBlob` succeeds).
-/

/-- One run of the `seeked` handler at playback position `t` of a video of
duration `D`: append a frame at `t`, then advance (clamped) and recurse,
or resolve. -/
def seekLoop (D t : ℚ) : List ℚ :=
  if t < D then t :: seekLoop D (min (t + 1) D) else [t]
termination_by (Int.ceil (D - t)).toNat
decreasing_by
  rename_i ht
  have h1 : (0 : ℤ) < Int.ceil (D - t) := by
    rw [Int.ceil_pos]
    linarith
  rcases le_or_lt (t + 1) D with hle | hlt
  · rw [min_eq_left hle]
    have h2 : Int.ceil (D - (t + 1)) = Int.ceil (D - t) - 1 := by
      rw [show D - (t + 1) = (D - t) - 1 by ring, Int.ceil_sub_one]
    omega
  · rw [min_eq_right hlt.le]
    have h2 : Int.ceil (D - D) = 0 := by
      rw [sub_self, Int.ceil_zero]
    omega

/-- The sequence of sampled frame positions for a video of duration `D`:
the loop starts by seeking to position 0 (line 102). -/
def extractFrames (D : ℚ) : List ℚ :=
  seekLoop D 0

theorem seekLoop_advance (D t : ℚ) (h : t < D) :
    seekLoop D t = t :: seekLoop D (min (t + 1) D) := by
  rw [seekLoop, if_pos h]

theorem seekLoop_resolve (D t : ℚ) (h : ¬ t < D) :
    seekLoop D t = [t] := by
  rw [seekLoop, if_neg h]

theorem extractFrames_three_point_four :
    extractFrames (17 / 5) = [0, 1, 2, 3, 17 / 5] := by
  rw [extractFrames,
    seekLoop_advance _ _ (by norm_num),
    show min ((0 : ℚ) + 1) (17 / 5) = 1 by rw [min_eq_left] <;> norm_num,
    seekLoop_advance _ _ (by norm_num),
    show min ((1 : ℚ) + 1) (17 / 5) = 2 by rw [min_eq_left] <;> norm_num,
    seekLoop_advance _ _ (by norm_num),
    show min ((2 : ℚ) + 1) (17 / 5) = 3 by rw [min_eq_left] <;> norm_num,
    seekLoop_advance _ _ (by norm_num),
    show min ((3 : ℚ) + 1) (17 / 5) = 17 / 5 by rw [min_eq_right] <;> norm_num,
    seekLoop_resolve _ _ (by norm_num)]

/-- Counterexample to claim C3 as stated: for a video of duration 3.4
seconds the loop does NOT return exactly 4 frames — the advance from
position 3 seeks to 4, the seek clamps to the 3.4-second duration, the
handler fires once more and appends a fifth frame before the loop ends. -/
theorem extractFrames_three_point_four_not_four :
    (extractFrames (17 / 5)).length ≠ 4 := by
  rw [extractFrames_three_point_four]
  norm_num

/-- Claim C3 (amended): for a video of duration 3.4 seconds the
frame-sampling loop returns exactly 5 frames, sampled at positions
0, 1, 2, 3 and finally 3.4 — the seek past the duration is clamped to the
duration and still appends one last frame before termination. -/
theorem extractFrames_three_point_four_five_frames :
    extractFrames (17 / 5) = [0, 1, 2, 3, 17 / 5] ∧
    (extractFrames (17 / 5)).length = 5 := by
  refine ⟨extractFrames_three_point_four, ?_⟩
  rw [extractFrames_three_point_four]
  norm_num

/-! ### Transcript assembler (claim C4)

Lines 591-624 of `onmessage`: an input transcription fragment is tagged
`user`, an output one `model`.  A non-empty fragment whose author differs
from `lastAuthorRef.current` pushes a fresh empty utterance and updates
`lastAuthorRef`; the fragment text is then appended to the last utterance's
text.  A `turnComplete` marker resets `lastAuthorRef.current` to `null`.
-/

/-- A speaker role, the `author` field of a `Transcription`. -/
inductive Author where
  | user
  | model
deriving DecidableEq

/-- One transcript entry: `{ author, text }`. -/
structure Utterance where
  author : Author
  text : String
deriving DecidableEq

/-- The assembler state: `transcriptionsRef.current` and
`lastAuthorRef.current`. -/
structure TranscriptState where
  transcriptions : List Utterance
  lastAuthor : Option Author
deriving DecidableEq

/-- `transcriptionsRef.current[transcriptionsRef.current.length - 1].text
+= text` (lines 602 and 614): append `txt` to the text of the last
utterance (no-op on an empty list, which the code never reaches). -/
def appendToLast : List Utterance → String → List Utterance
  | [], _ => []
  | [u], txt => [{ u with text := u.text ++ txt }]
  | u :: v :: rest, txt => u :: appendToLast (v :: rest) txt

/-- Processing one transcription fragment (lines 594-616): an empty text
is skipped (`if (text)`); otherwise a new utterance is pushed exactly when
the tracked last author differs, and the text is appended to the last
utterance. -/
def pushFragment (st : TranscriptState) (a : Author) (txt : String) : TranscriptState :=
  if txt = "" then st
  else
    let st1 :=
      if st.lastAuthor ≠ some a then
        { transcriptions := st.transcriptions ++ [{ author := a, text := "" }],
          lastAuthor := some a }
      else st
    { st1 with transcriptions := appendToLast st1.transcriptions txt }

/-- The transcript-affecting events of one streaming message. -/
inductive TranscriptEvent where
  | frag (a : Author) (txt : String)
  | turnComplete
deriving DecidableEq

/-- One step of the assembler: a fragment, or the `turnComplete` marker
that resets `lastAuthorRef.current` to `null` (lines 622-624). -/
def transcriptStep (st : TranscriptState) : TranscriptEvent → TranscriptState
  | .frag a txt => pushFragment st a txt
  | .turnComplete => { st with lastAuthor := none }

/-- The assembler state at session start (lines 553-554). -/
def initTranscript : TranscriptState :=
  { transcriptions := [], lastAuthor := none }

/-- Processing a whole stream of events. -/
def transcriptRun (st : TranscriptState) (es : List TranscriptEvent) : TranscriptState :=
  es.foldl transcriptStep st

theorem appendToLast_length (l : List Utterance) (txt : String) :
    (appendToLast l txt).length = l.length := by
  induction l with
  | nil => rfl
  | cons u rest ih =>
      cases rest with
      | nil => rfl
      | cons v rest' => simpa [appendToLast] using ih

theorem appendToLast_append_singleton (l : List Utterance) (u : Utterance) (txt : String) :
    appendToLast (l ++ [u]) txt = l ++ [{ u with text := u.text ++ txt }] := by
  induction l with
  | nil => rfl
  | cons w rest ih =>
      cases rest with
      | nil => simp [appendToLast]
      | cons v rest' => simpa [appendToLast] using ih

/-- Claim C4: a non-empty fragment starts a new utterance exactly when its
speaker differs from the tracked previous speaker (which a turn-completion
marker resets to `none`, hence differing from every speaker); a fragment
from the tracked speaker is appended to the current utterance instead; and
the stream user, user, model, user yields exactly the three utterances
user:"ab", model:"c", user:"d". -/
theorem transcript_assembler_spec (st : TranscriptState) (a : Author) (txt : String)
    (hne : txt ≠ "") :
    ((pushFragment st a txt).transcriptions.length = st.transcriptions.length + 1 ↔
      st.lastAuthor ≠ some a) ∧
    (st.lastAuthor ≠ some a →
      (pushFragment st a txt).transcriptions =
        appendToLast (st.transcriptions ++ [{ author := a, text := "" }]) txt ∧
      (pushFragment st a txt).lastAuthor = some a) ∧
    (st.lastAuthor = some a →
      (pushFragment st a txt).transcriptions = appendToLast st.transcriptions txt) ∧
    (transcriptStep st .turnComplete).lastAuthor = none ∧
    transcriptRun initTranscript
        [.frag .user "a", .frag .user "b", .frag .model "c", .frag .user "d"] =
      { transcriptions := [⟨.user, "ab"⟩, ⟨.model, "c"⟩, ⟨.user, "d"⟩],
        lastAuthor := some .user } := by
  refine ⟨?_, ?_, ?_, rfl, by decide⟩
  · by_cases hla : st.lastAuthor = some a
    · rw [pushFragment, if_neg hne]
      simp [hla, appendToLast_length]
    · rw [pushFragment, if_neg hne]
      simp [hla, appendToLast_length]
  · intro hla
    rw [pushFragment, if_neg hne]
    simp [if_pos hla]
  · intro hla
    rw [pushFragment, if_neg hne]
    simp [hla]

/-- Witness for C4: a model fragment arriving while the tracked speaker is
`user`. -/
theorem transcript_assembler_spec_witness :
    ("hi" : String) ≠ "" ∧
    (((pushFragment ⟨[⟨.user, "u"⟩], some .user⟩ .model "hi").transcriptions.length =
          (⟨[⟨.user, "u"⟩], some .user⟩ : TranscriptState).transcriptions.length + 1 ↔
        (⟨[⟨.user, "u"⟩], some .user⟩ : TranscriptState).lastAuthor ≠ some .model) ∧
      ((⟨[⟨.user, "u"⟩], some .user⟩ : TranscriptState).lastAuthor ≠ some .model →
        (pushFragment ⟨[⟨.user, "u"⟩], some .user⟩ .model "hi").transcriptions =
          appendToLast
            ((⟨[⟨.user, "u"⟩], some .user⟩ : TranscriptState).transcriptions ++
              [{ author := .model, text := "" }]) "hi" ∧
        (pushFragment ⟨[⟨.user, "u"⟩], some .user⟩ .model "hi").lastAuthor = some .model) ∧
      ((⟨[⟨.user, "u"⟩], some .user⟩ : TranscriptState).lastAuthor = some .model →
        (pushFragment ⟨[⟨.user, "u"⟩], some .user⟩ .model "hi").transcriptions =
          appendToLast (⟨[⟨.user, "u"⟩], some .user⟩ : TranscriptState).transcriptions "hi") ∧
      (transcriptStep ⟨[⟨.user, "u"⟩], some .user⟩ .turnComplete).lastAuthor = none ∧
      transcriptRun initTranscript
          [.frag .user "a", .frag .user "b", .frag .model "c", .frag .user "d"] =
        { transcriptions := [⟨.user, "ab"⟩, ⟨.model, "c"⟩, ⟨.user, "d"⟩],
          lastAuthor := some .user }) :=
  ⟨by decide, transcript_assembler_spec ⟨[⟨.user, "u"⟩], some .user⟩ .model "hi" (by decide)⟩

/-! ### Input validation and the empty-frames error path (claims C7, C8)

`handleGenerateSpeech` (lines 331-335) returns with a validation error
when `text.trim()` is empty, before constructing the API client.
`handleAnalyze` (lines 130-134) does the same when there is no video file,
`prompt.trim()` is empty, or the media elements are missing; after frame
extraction (lines 146-150) it throws `video_error_no_frames` when zero
frames were extracted, before the `generateContent` call, and no code path
retries.  Strings are modelled as lists of characters and `trim` by the
ECMAScript white-space set.
-/

/-- The characters removed by ECMAScript `String.prototype.trim`:
WhiteSpace (tab, VT, FF, space, NBSP, BOM and the Unicode space
separators) and LineTerminator (LF, CR, LS, PS). -/
def jsWhitespaceChars : List Char :=
  ['\t', '\n', '\u000B', '\u000C', '\r', ' ', ' ', ' ',
   ' ', ' ', ' ', ' ', ' ', ' ', ' ',
   ' ', ' ', ' ', ' ', ' ', ' ', ' ',
   ' ', '　', '﻿']

/-- White-space test for `trim`. -/
def jsWhitespace (c : Char) : Bool :=
  jsWhitespaceChars.contains c

/-- ECMAScript `s.trim()`: drop white space from both ends. -/
def jsTrim (s : List Char) : List Char :=
  ((s.dropWhile jsWhitespace).reverse.dropWhile jsWhitespace).reverse

/-- The immediate outcome of a user-initiated flow: it is rejected by the
validation gate, or it proceeds toward the remote service.  The second
component counts the remote requests issued. -/
inductive FlowOutcome where
  | validationError (msg : String)
  | hardError (msg : String)
  | remoteCall
deriving DecidableEq

/-- `handleGenerateSpeech` up to the remote call (lines 331-356): reject
with `tts_error_empty_text` when the trimmed text is empty (`!text.trim()`),
otherwise issue one `generateContent` request. -/
def handleGenerateSpeech (text : List Char) : FlowOutcome × ℕ :=
  if jsTrim text = [] then (.validationError "tts_error_empty_text", 0)
  else (.remoteCall, 1)

/-- The continuation of `handleAnalyze` after frame extraction
(lines 146-168): zero extracted frames throw `video_error_no_frames`
(caught once, reported, never retried) before the `generateContent` call;
otherwise one request is issued. -/
def analyzeFrames (frames : List ℚ) : FlowOutcome × ℕ :=
  if frames.length = 0 then (.hardError "video_error_no_frames", 0)
  else (.remoteCall, 1)

/-- `handleAnalyze` (lines 130-178): the validation gate of lines 131-134
rejects with `video_error_no_file_prompt` when any of the video file, the
trimmed prompt, the media refs or the object URL is missing, before any
remote work; otherwise the flow continues with the extracted frames. -/
def handleAnalyze (hasVideoFile hasVideoRef hasCanvasRef hasVideoUrl : Bool)
    (prompt : List Char) (frames : List ℚ) : FlowOutcome × ℕ :=
  if hasVideoFile = false ∨ jsTrim prompt = [] ∨ hasVideoRef = false ∨
      hasCanvasRef = false ∨ hasVideoUrl = false then
    (.validationError "video_error_no_file_prompt", 0)
  else analyzeFrames frames

theorem jsTrim_of_all_whitespace (s : List Char) (h : ∀ c ∈ s, jsWhitespace c = true) :
    jsTrim s = [] := by
  have h1 : s.dropWhile jsWhitespace = [] := List.dropWhile_eq_nil_iff.mpr h
  simp [jsTrim, h1]

/-- Claim C7: an input that is empty or consists only of white space is
rejected by both the speech-synthesis flow and the video-analysis flow
with a validation error before any remote call, and zero remote requests
are issued. -/
theorem blank_input_rejected_before_remote_call (text prompt : List Char)
    (hVF hVR hCR hVU : Bool) (frames : List ℚ)
    (htext : ∀ c ∈ text, jsWhitespace c = true)
    (hprompt : ∀ c ∈ prompt, jsWhitespace c = true) :
    handleGenerateSpeech text = (.validationError "tts_error_empty_text", 0) ∧
    handleAnalyze hVF hVR hCR hVU prompt frames =
      (.validationError "video_error_no_file_prompt", 0) := by
  constructor
  · rw [handleGenerateSpeech, if_pos (jsTrim_of_all_whitespace text htext)]
  · rw [handleAnalyze, if_pos (Or.inr (Or.inl (jsTrim_of_all_whitespace prompt hprompt)))]

/-- Witness for C7: a space-only synthesis text and a tab-space prompt,
with all the media flags present and a non-empty frame list. -/
theorem blank_input_rejected_before_remote_call_witness :
    ((∀ c ∈ [' '], jsWhitespace c = true) ∧
      (∀ c ∈ ['\t', ' '], jsWhitespace c = true)) ∧
    (handleGenerateSpeech [' '] = (.validationError "tts_error_empty_text", 0) ∧
      handleAnalyze true true true true ['\t', ' '] [0] =
        (.validationError "video_error_no_file_prompt", 0)) :=
  ⟨⟨by decide, by decide⟩,
    blank_input_rejected_before_remote_call [' '] ['\t', ' '] true true true true [0]
      (by decide) (by decide)⟩

/-- Claim C8: when frame extraction yields an empty sequence, the
video-analysis flow terminates with the hard error `video_error_no_frames`
and issues zero remote requests (hence no retry). -/
theorem empty_frames_hard_error (frames : List ℚ) (h : frames = []) :
    (analyzeFrames frames).1 = .hardError "video_error_no_frames" ∧
    (analyzeFrames frames).2 = 0 := by
  subst h
  exact ⟨rfl, rfl⟩

/-- Witness for C8 at the empty frame list. -/
theorem empty_frames_hard_error_witness :
    ([] : List ℚ) = [] ∧
    ((analyzeFrames ([] : List ℚ)).1 = .hardError "video_error_no_frames" ∧
      (analyzeFrames ([] : List ℚ)).2 = 0) :=
  ⟨rfl, empty_frames_hard_error [] rfl⟩

/-! ### Waveform (WAV) container round-trip (claim C9)

`handleDownloadAudio` (lines 392-404) calls `encodeWAV(pcmData,
sampleRate)` from `../utils`, a file that is not part of the sources under
`src/`.  The encoder is therefore modelled from the spec: a standard
uncompressed waveform container built from the raw sample buffer and its
sample rate — a 44-byte canonical RIFF/WAVE header (PCM format 1, one
channel, 16 bits per sample, little-endian fields) followed by the 16-bit
little-endian samples.  Bytes are naturals below 256 and PCM samples are
integers in `[-32768, 32768)`.
-/

/-- The four little-endian bytes of a 32-bit field. -/
def u32le (n : ℕ) : List ℕ :=
  [n % 256, n / 256 % 256, n / 65536 % 256, n / 16777216 % 256]

/-- The two little-endian bytes of a 16-bit field. -/
def u16le (n : ℕ) : List ℕ :=
  [n % 256, n / 256 % 256]

/-- A signed 16-bit PCM sample as two little-endian bytes
(two's complement). -/
def i16le (s : ℤ) : List ℕ :=
  u16le (s % 65536).toNat

/-- ASCII `RIFF`. -/
def riffMagic : List ℕ := [82, 73, 70, 70]

/-- ASCII `WAVE`. -/
def waveMagic : List ℕ := [87, 65, 86, 69]

/-- ASCII `fmt ` followed by the subchunk size 16. -/
def fmtMagic : List ℕ := [102, 109, 116, 32]

/-- ASCII `data`. -/
def dataMagic : List ℕ := [100, 97, 116, 97]

/-- Modelled from the spec: `encodeWAV` of `utils.ts` (absent from `src/`,
called at line 395) builds the downloadable waveform file from the raw
sample buffer and its sample rate — the canonical 44-byte mono 16-bit PCM
RIFF/WAVE header followed by the little-endian samples. -/
def encodeWAV (samples : List ℤ) (sampleRate : ℕ) : List ℕ :=
  riffMagic ++ u32le (36 + 2 * samples.length) ++ waveMagic ++
    fmtMagic ++ u32le 16 ++ u16le 1 ++ u16le 1 ++ u32le sampleRate ++
    u32le (2 * sampleRate) ++ u16le 2 ++ u16le 16 ++
    dataMagic ++ u32le (2 * samples.length) ++ (samples.map i16le).flatten

/-- Consume an expected byte sequence from the head of a stream. -/
def expectBytes (pat bs : List ℕ) : Option (List ℕ) :=
  if bs.take pat.length = pat then some (bs.drop pat.length) else none

/-- Read a 32-bit little-endian field. -/
def readU32le : List ℕ → Option (ℕ × List ℕ)
  | a :: b :: c :: d :: rest => some (a + 256 * b + 65536 * c + 16777216 * d, rest)
  | _ => none

/-- Reassemble a signed sample from its two little-endian bytes. -/
def decodeSample (b0 b1 : ℕ) : ℤ :=
  if b0 + 256 * b1 < 32768 then (b0 + 256 * b1 : ℤ)
  else (b0 + 256 * b1 : ℤ) - 65536

/-- Decode the data chunk: consecutive 16-bit little-endian samples. -/
def decodeSamples : List ℕ → Option (List ℤ)
  | [] => some []
  | b0 :: b1 :: rest => (decodeSamples rest).map (decodeSample b0 b1 :: ·)
  | _ => none

/-- Decode a canonical mono 16-bit PCM WAV file: check the header, read
the sample rate, decode the samples. -/
def decodeWAV (bs : List ℕ) : Option (List ℤ × ℕ) := do
  let bs ← expectBytes riffMagic bs
  let (_, bs) ← readU32le bs
  let bs ← expectBytes waveMagic bs
  let bs ← expectBytes fmtMagic bs
  let bs ← expectBytes (u32le 16) bs
  let bs ← expectBytes (u16le 1) bs
  let bs ← expectBytes (u16le 1) bs
  let (rate, bs) ← readU32le bs
  let (_, bs) ← readU32le bs
  let bs ← expectBytes (u16le 2) bs
  let bs ← expectBytes (u16le 16) bs
  let bs ← expectBytes dataMagic bs
  let (_, bs) ← readU32le bs
  let samples ← decodeSamples bs
  pure (samples, rate)

theorem expectBytes_append (pat rest : List ℕ) :
    expectBytes pat (pat ++ rest) = some rest := by
  simp [expectBytes]

theorem readU32le_u32le_bytes (n : ℕ) (rest : List ℕ) :
    readU32le (u32le n ++ rest) =
      some (n % 256 + 256 * (n / 256 % 256) + 65536 * (n / 65536 % 256) +
        16777216 * (n / 16777216 % 256), rest) := by
  simp [u32le, readU32le]

theorem readU32le_u32le (n : ℕ) (rest : List ℕ) (h : n < 4294967296) :
    readU32le (u32le n ++ rest) = some (n, rest) := by
  rw [readU32le_u32le_bytes]
  congr 2
  omega

theorem decodeSample_i16le (s : ℤ) (h0 : -32768 ≤ s) (h1 : s < 32768) :
    ∀ rest : List ℕ, decodeSamples (i16le s ++ rest) =
      (decodeSamples rest).map (s :: ·) := by
  intro rest
  have hmod : (0 : ℤ) ≤ s % 65536 := Int.emod_nonneg s (by norm_num)
  have hmod' : s % 65536 < 65536 := Int.emod_lt_of_pos s (by norm_num)
  simp only [i16le, u16le, List.cons_append, List.nil_append, decodeSamples]
  have hs : decodeSample ((s % 65536).toNat % 256) ((s % 65536).toNat / 256 % 256) = s := by
    have hcase : s % 65536 = s ∨ s % 65536 = s + 65536 := by omega
    unfold decodeSample
    rcases hcase with hc | hc <;> split <;> push_cast <;> omega
  rw [hs]
  simp

theorem decodeSamples_join (samples : List ℤ)
    (hs : ∀ s ∈ samples, -32768 ≤ s ∧ s < 32768) :
    decodeSamples ((samples.map i16le).flatten) = some samples := by
  induction samples with
  | nil => rfl
  | cons s rest ih =>
      have hhead := hs s (by simp)
      have hrest : ∀ x ∈ rest, -32768 ≤ x ∧ x < 32768 :=
        fun x hx => hs x (List.mem_cons_of_mem _ hx)
      simp only [List.map_cons, List.flatten_cons]
      rw [decodeSample_i16le s hhead.1 hhead.2, ih hrest]
      rfl

/-- Claim C9: decoding the waveform container built from any in-range PCM
sample buffer and any 32-bit sample rate recovers exactly the original
samples and sample rate (a lossless round-trip). -/
theorem encodeWAV_decodeWAV_roundtrip (samples : List ℤ) (sampleRate : ℕ)
    (hs : ∀ s ∈ samples, -32768 ≤ s ∧ s < 32768)
    (hr : sampleRate < 4294967296) :
    decodeWAV (encodeWAV samples sampleRate) = some (samples, sampleRate) := by
  rw [encodeWAV, decodeWAV]
  simp only [List.append_assoc]
  rw [expectBytes_append]
  simp only [Option.bind_eq_bind, Option.some_bind]
  rw [readU32le_u32le_bytes]
  simp only [Option.some_bind]
  rw [expectBytes_append]
  simp only [Option.some_bind]
  rw [expectBytes_append]
  simp only [Option.some_bind]
  rw [expectBytes_append]
  simp only [Option.some_bind]
  rw [expectBytes_append]
  simp only [Option.some_bind]
  rw [expectBytes_append]
  simp only [Option.some_bind]
  rw [readU32le_u32le _ _ hr]
  simp only [Option.some_bind]
  rw [readU32le_u32le_bytes]
  simp only [Option.some_bind]
  rw [expectBytes_append]
  simp only [Option.some_bind]
  rw [expectBytes_append]
  simp only [Option.some_bind]
  rw [expectBytes_append]
  simp only [Option.some_bind]
  rw [readU32le_u32le_bytes]
  simp only [Option.some_bind]
  rw [decodeSamples_join samples hs]
  rfl

/-- Witness for C9: a concrete five-sample buffer covering both extremes,
at the 24 kHz rate used by the synthesis mode. -/
theorem encodeWAV_decodeWAV_roundtrip_witness :
    ((∀ s ∈ [(0 : ℤ), 1, -1, 32767, -32768], -32768 ≤ s ∧ s < 32768) ∧
      (24000 : ℕ) < 4294967296) ∧
    decodeWAV (encodeWAV [0, 1, -1, 32767, -32768] 24000) =
      some ([0, 1, -1, 32767, -32768], 24000) :=
  ⟨⟨by decide, by decide⟩,
    encodeWAV_decodeWAV_roundtrip [0, 1, -1, 32767, -32768] 24000 (by decide) (by decide)⟩

/-! ### Localization lookup (claim C10)

`t` (lines 20-27 of `LanguageContext.tsx`) evaluates
`translations[language][key] || translations['en'][key]` — JavaScript `||`
takes the active language's entry when it is truthy (present and, for a
string, non-empty) and the English entry otherwise — then applies the
selected entry to the arguments when it is a function, and returns it
directly when it is a string.  `dir` (line 29) is `'rtl'` for `'ar'` and
`'ltr'` otherwise.  The table `translations` lives in `translations.ts`,
which is not under `src/`, so it is an arbitrary parameter here; a missing
key is `none`.
-/

/-- The two UI languages. -/
inductive Lang where
  | en
  | ar
deriving DecidableEq

/-- A translation-table entry: a plain string or a parameterized message
(a function of the extra arguments of `t`). -/
inductive TransEntry where
  | str (s : String)
  | fn (f : List String → String)

/-- JavaScript truthiness of a possibly-missing entry: `undefined` and the
empty string are falsy, a non-empty string or a function is truthy. -/
def entryTruthy : Option TransEntry → Bool
  | none => false
  | some (.str s) => decide (s ≠ "")
  | some (.fn _) => true

/-- The lookup `t` (lines 20-27): select
`translations[language][key] || translations['en'][key]`, then apply it to
the arguments when it is a function. -/
def tLookup (translations : Lang → String → Option TransEntry) (lang : Lang)
    (key : String) (args : List String) : Option String :=
  match
    (if entryTruthy (translations lang key) then translations lang key
     else translations .en key) with
  | some (.fn f) => some (f args)
  | some (.str s) => some s
  | none => none

/-- The derived text-direction flag (line 29):
`language === 'ar' ? 'rtl' : 'ltr'`. -/
def dir (lang : Lang) : String :=
  if lang = .ar then "rtl" else "ltr"

/-- Claim C10: `t` returns the active language's entry whenever that entry
is truthy (in particular any non-empty string entry is returned as is),
falls back to the English entry for the same key otherwise, and the
direction flag is `rtl` for Arabic and `ltr` for English. -/
theorem tLookup_truthy_or_english_fallback
    (translations : Lang → String → Option TransEntry) (lang : Lang)
    (key : String) (args : List String) :
    (∀ s : String, translations lang key = some (.str s) → s ≠ "" →
      tLookup translations lang key args = some s) ∧
    (∀ f : List String → String, translations lang key = some (.fn f) →
      tLookup translations lang key args = some (f args)) ∧
    (entryTruthy (translations lang key) = false →
      tLookup translations lang key args = tLookup translations .en key args) ∧
    dir .ar = "rtl" ∧ dir .en = "ltr" := by
  refine ⟨?_, ?_, ?_, rfl, rfl⟩
  · intro s hs hne
    rw [tLookup, hs]
    simp [entryTruthy, hne]
  · intro f hf
    rw [tLookup, hf]
    simp [entryTruthy]
  · intro hfalsy
    rw [tLookup, if_neg (by simp [hfalsy]), tLookup]
    by_cases he : entryTruthy (translations Lang.en key) = true
    · rw [if_pos he]
    · have he' : entryTruthy (translations Lang.en key) = false := by
        simpa using he
      rw [if_neg (by simp [he'])]

/-- Witness for C10 on a concrete two-key table: `"greet"` has a non-empty
Arabic entry, `"missing"` has none and falls back to English. -/
theorem tLookup_truthy_or_english_fallback_witness :
    ((fun lang key =>
        if lang = Lang.ar ∧ key = "greet" then some (TransEntry.str "مرحبا")
        else if key = "missing" ∧ lang = Lang.en then some (TransEntry.str "fallback")
        else none) Lang.ar "greet" = some (.str "مرحبا") ∧
      ("مرحبا" : String) ≠ "" ∧
      entryTruthy ((fun lang key =>
        if lang = Lang.ar ∧ key = "greet" then some (TransEntry.str "مرحبا")
        else if key = "missing" ∧ lang = Lang.en then some (TransEntry.str "fallback")
        else none) Lang.ar "missing") = false) ∧
    (tLookup (fun lang key =>
        if lang = Lang.ar ∧ key = "greet" then some (TransEntry.str "مرحبا")
        else if key = "missing" ∧ lang = Lang.en then some (TransEntry.str "fallback")
        else none) Lang.ar "greet" [] = some "مرحبا" ∧
      tLookup (fun lang key =>
        if lang = Lang.ar ∧ key = "greet" then some (TransEntry.str "مرحبا")
        else if key = "missing" ∧ lang = Lang.en then some (TransEntry.str "fallback")
        else none) Lang.ar "missing" [] =
        tLookup (fun lang key =>
          if lang = Lang.ar ∧ key = "greet" then some (TransEntry.str "مرحبا")
          else if key = "missing" ∧ lang = Lang.en then some (TransEntry.str "fallback")
          else none) Lang.en "missing" [] ∧
      dir .ar = "rtl" ∧ dir .en = "ltr") := by
  refine ⟨⟨by simp, by simp, by simp [entryTruthy]⟩, ?_, ?_, rfl, rfl⟩
  · exact (tLookup_truthy_or_english_fallback _ Lang.ar "greet" []).1 "مرحبا"
      (by simp) (by simp)
  · exact (tLookup_truthy_or_english_fallback _ Lang.ar "missing" []).2.2.1
      (by simp [entryTruthy])

end LisanAI
